import Mathlib

/-!
Verification of the recipe-app-api core behaviour.

Part 1 embeds `app/core/management/commands/wait_for_db.py` (present in the
source tree) as a fuel-indexed loop.

Part 2 models the Recipe Manager and Tag/Ingredient Repository.  The Python
implementation of these components (`app/recipe/serializers.py`,
`app/recipe/views.py`, `app/core/models.py`) is not part of the provided
source tree - only their test files are - so the operations below are
modelled from the specification's component design (spec sections 3 and 4),
with the tests used as a cross-check of the intended behaviour.
-/

namespace WaitForDb

/-- Outcome of one `self.check(databases=['default'])` call in
`wait_for_db.py`: either it returns normally, or it raises one of the two
caught exception types (`psycopg2.OperationalError`,
`django.db.utils.OperationalError`). -/
inductive CheckOutcome where
  | ok
  | psycopg2Error
  | djangoError
deriving DecidableEq, Repr

/-- `MAX_RETRIES = 30` from `Command.handle`. -/
def MAX_RETRIES : Nat := 30

/-- The `while db_up is False and retries < MAX_RETRIES` loop of
`Command.handle`, with `fuel = MAX_RETRIES - retries` making termination
structural.  Each iteration performs one check; on `ok` it sets `db_up` and
still increments `retries` (as the Python code does, since `retries += 1`
is outside the `try`), on either caught exception it just increments
`retries`.  Returns the final `(db_up, retries)` pair; `retries` counts the
number of checks performed. -/
def handleGo (check : Nat → CheckOutcome) (retries : Nat) : Nat → Bool × Nat
  | 0 => (false, retries)
  | fuel + 1 =>
    match check retries with
    | .ok => (true, retries + 1)
    | .psycopg2Error => handleGo check (retries + 1) fuel
    | .djangoError => handleGo check (retries + 1) fuel

/-- `Command.handle`: run the loop from `db_up = False`, `retries = 0`. -/
def handle (check : Nat → CheckOutcome) : Bool × Nat :=
  handleGo check 0 MAX_RETRIES

/-- The final `self.stdout.write` of `Command.handle`: success message when
`db_up` ended true, error message otherwise. -/
def handleMessage (check : Nat → CheckOutcome) : String :=
  if (handle check).1 then "Database available!"
  else "Database not available after max retries."

end WaitForDb

namespace RecipeApp

/-- Modelled from the spec: a Tag/Ingredient row (`app/core/models.py` is not
under src/).  Spec section 3: owning user and a name; Tag and Ingredient have
"identical shape and lifecycle rules" but live in separate relations, which
the model keeps as two separate `Table` fields of the store. -/
structure Ent where
  id : Nat
  user : Nat
  name : String
deriving DecidableEq, Repr

/-- One relational table of Tag or Ingredient rows, with the store's id
sequence. -/
structure Table where
  rows : List Ent
  nextId : Nat
deriving DecidableEq, Repr

/-- Modelled from the spec: a Recipe row (`app/core/models.py` is not under
src/).  Spec section 3: owning user, title, time_minutes, price, optional
description and link, and many-to-many associations kept as lists of
Tag/Ingredient ids. -/
structure Recipe where
  id : Nat
  user : Nat
  title : String
  time_minutes : Nat
  price : Int
  description : Option String
  link : Option String
  tags : List Nat
  ingredients : List Nat
deriving DecidableEq, Repr

/-- The relational store: recipes plus the two user-scoped entity tables
(spec section 2, "Relational Store"). -/
structure Store where
  recipes : List Recipe
  tagTable : Table
  ingTable : Table
  nextRecipeId : Nat
deriving DecidableEq, Repr

/-- Modelled from the spec: get-or-create scoped to `(user, name)`
(spec 4.1: "if a Tag/Ingredient with that exact name already exists for this
user, reuse it; otherwise create it"; the Python `_get_or_create_tags`
helper in `app/recipe/serializers.py` is not under src/).  Returns the id of
the existing-or-new row and the possibly extended table. -/
def getOrCreate (tb : Table) (u : Nat) (n : String) : Nat × Table :=
  match tb.rows.find? (fun e => e.user == u && e.name == n) with
  | some e => (e.id, tb)
  | none =>
    let e : Ent := ⟨tb.nextId, u, n⟩
    (e.id, ⟨tb.rows ++ [e], tb.nextId + 1⟩)

/-- Attach a resolved id to a recipe's association set; attaching an id
already present is a no-op (spec 4.1: "No entity is duplicated within the
recipe's set"). -/
def attachId (acc : List Nat) (i : Nat) : List Nat :=
  if i ∈ acc then acc else acc ++ [i]

/-- Modelled from the spec: resolve a list of `{name}` entries against one
table via get-or-create, attaching each resolved id (spec 4.1 Create). -/
def resolveNames (u : Nat) : Table → List Nat → List String → List Nat × Table
  | tb, acc, [] => (acc, tb)
  | tb, acc, n :: ns =>
    let p := getOrCreate tb u n
    resolveNames u p.2 (attachId acc p.1) ns

/-- Create/Update input for the nested `tags`/`ingredients` keys: `none`
means the key is absent, `some ns` means the key is present with that list
of names (spec 9: "field omitted" vs "field present with value"). -/
structure CreateParams where
  title : String
  time_minutes : Nat
  price : Int
  description : Option String
  link : Option String
  tags : Option (List String)
  ingredients : Option (List String)
deriving DecidableEq, Repr

/-- Modelled from the spec: `Create(user, ...) → Recipe` (spec 4.1).
Ownership is always the calling `user`; nested tags/ingredients are resolved
by get-or-create and attached; the persisted recipe is returned with the
updated store. -/
def createRecipe (s : Store) (u : Nat) (p : CreateParams) : Recipe × Store :=
  let tres := match p.tags with
    | none => ([], s.tagTable)
    | some ns => resolveNames u s.tagTable [] ns
  let ires := match p.ingredients with
    | none => ([], s.ingTable)
    | some ns => resolveNames u s.ingTable [] ns
  let r : Recipe :=
    { id := s.nextRecipeId, user := u, title := p.title,
      time_minutes := p.time_minutes, price := p.price,
      description := p.description, link := p.link,
      tags := tres.1, ingredients := ires.1 }
  (r, { recipes := s.recipes ++ [r], tagTable := tres.2, ingTable := ires.2,
        nextRecipeId := s.nextRecipeId + 1 })

/-- A partial-update patch: every field optional; a `user` key may be
present but is ignored by Update (spec 4.1: "Any attempt to modify `user`
in the patch is ignored"). -/
structure Patch where
  user : Option Nat
  title : Option String
  time_minutes : Option Nat
  price : Option Int
  description : Option (Option String)
  link : Option (Option String)
  tags : Option (List String)
  ingredients : Option (List String)
deriving DecidableEq, Repr

/-- The error taxonomy entry relevant to the Recipe Manager (spec section 7):
an operation targeting a recipe not owned by the requesting user, or not
existing at all, fails with NotFoundError. -/
inductive RepoError where
  | notFound
deriving DecidableEq, Repr

/-- Look up a recipe by id scoped to the requesting user; ownership mismatch
is indistinguishable from nonexistence (spec section 7). -/
def findOwnedRecipe (s : Store) (u rid : Nat) : Option Recipe :=
  s.recipes.find? (fun r => r.id == rid && r.user == u)

/-- Modelled from the spec: `Update(recipe, user, patch)` (spec 4.1).
Fails with NotFound unless the recipe exists and is owned by `user`.  Only
fields present in the patch are modified; a present `tags`/`ingredients` key
is a full replacement of the association set; a present `user` key is
ignored. -/
def updateRecipe (s : Store) (u rid : Nat) (q : Patch) :
    Except RepoError (Recipe × Store) :=
  match findOwnedRecipe s u rid with
  | none => .error .notFound
  | some r =>
    let tres := match q.tags with
      | none => (r.tags, s.tagTable)
      | some ns => resolveNames u s.tagTable [] ns
    let ires := match q.ingredients with
      | none => (r.ingredients, s.ingTable)
      | some ns => resolveNames u s.ingTable [] ns
    let r' : Recipe :=
      { r with
        title := q.title.getD r.title,
        time_minutes := q.time_minutes.getD r.time_minutes,
        price := q.price.getD r.price,
        description := q.description.getD r.description,
        link := q.link.getD r.link,
        tags := tres.1, ingredients := ires.1 }
    .ok (r', { recipes :=
                 s.recipes.map (fun x => if x.id == rid && x.user == u then r' else x),
               tagTable := tres.2, ingTable := ires.2,
               nextRecipeId := s.nextRecipeId })

/-- Modelled from the spec: `Delete(recipe, user)` (spec 4.1).  Fails with
NotFound unless owned; removes the recipe and its association rows, never
cascade-deleting tags/ingredients. -/
def deleteRecipe (s : Store) (u rid : Nat) : Except RepoError Store :=
  match findOwnedRecipe s u rid with
  | none => .error .notFound
  | some _ =>
    .ok { s with recipes := s.recipes.filter (fun r => !(r.id == rid && r.user == u)) }

/-- Non-empty intersection test between a recipe's association id list and a
filter id set. -/
def intersects (xs ys : List Nat) : Bool :=
  xs.any (fun x => ys.contains x)

/-- Optional id-set filters of `List` (spec 4.1): `none` means the filter
was not supplied. -/
structure ListFilter where
  tags : Option (List Nat)
  ingredients : Option (List Nat)
deriving DecidableEq, Repr

/-- Modelled from the spec: `List(user, filter?)` (spec 4.1).  Scoped to the
user's own recipes; each supplied filter keeps recipes whose association set
intersects the given id set (OR within a filter, AND between the two
filters); ordering is the reverse of internal identity order. -/
def listRecipes (s : Store) (u : Nat) (f : ListFilter) : List Recipe :=
  (s.recipes.filter (fun r =>
    r.user == u
    && (match f.tags with
        | none => true
        | some ts => intersects r.tags ts)
    && (match f.ingredients with
        | none => true
        | some ids => intersects r.ingredients ids))).reverse

/-- Does the entity appear in at least one of `u`'s recipes, reading the
association set through `proj` (`Recipe.tags` or `Recipe.ingredients`)? -/
def assignedToSome (recipes : List Recipe) (u : Nat) (proj : Recipe → List Nat)
    (e : Ent) : Bool :=
  recipes.any (fun r => r.user == u && (proj r).contains e.id)

/-- Modelled from the spec: `ListAssigned(user, assigned_only)` (spec 4.2)
over one table.  Returns the user's own rows, restricted to those assigned
to at least one of the user's recipes when `assignedOnly` is true, in
reverse alphabetical order by name. -/
def listAssigned (tb : Table) (recipes : List Recipe) (u : Nat)
    (proj : Recipe → List Nat) (assignedOnly : Bool) : List Ent :=
  List.insertionSort (fun a b => b.name ≤ a.name)
    (tb.rows.filter (fun e =>
      e.user == u && (!assignedOnly || assignedToSome recipes u proj e)))

/-- `ListAssigned` for the Tag relation. -/
def listAssignedTags (s : Store) (u : Nat) (assignedOnly : Bool) : List Ent :=
  listAssigned s.tagTable s.recipes u Recipe.tags assignedOnly

/-- `ListAssigned` for the Ingredient relation. -/
def listAssignedIngredients (s : Store) (u : Nat) (assignedOnly : Bool) : List Ent :=
  listAssigned s.ingTable s.recipes u Recipe.ingredients assignedOnly

/-- Matching predicate for the `(user, name)` scope of get-or-create. -/
def entMatches (u : Nat) (n : String) (e : Ent) : Bool :=
  e.user == u && e.name == n

/-! Concrete fixtures mirroring the test data of
`app/recipe/tests/test_recipe_api.py` and
`app/recipe/tests/test_ingredients_api.py`, used to evaluate the theorems
on closed inputs. -/

/-- The empty relational store. -/
def emptyStore : Store := ⟨[], ⟨[], 0⟩, ⟨[], 0⟩, 0⟩

/-- The sample recipe payload of `create_recipe` in the tests (price 5.25
kept as cents). -/
def sampleParams : CreateParams :=
  { title := "Sample recipe title", time_minutes := 22, price := 525,
    description := some "Sample description",
    link := some "http://example.com/recipe.pdf",
    tags := none, ingredients := none }

/-- The sample payload with a nested tag list, as in
`test_create_recipe_with_new_tags`. -/
def thaiParams : CreateParams := { sampleParams with tags := some ["Thai"] }

/-- Store holding one sample recipe (id 0) owned by user 0. -/
def store1 : Store := (createRecipe emptyStore 0 sampleParams).2

/-- A patch that only tries to reassign the owner, as in
`test_update_user_returns_error`. -/
def patchUser : Patch := ⟨some 1, none, none, none, none, none, none, none⟩

/-- A patch replacing the tag list, as in `test_update_recipe_assign_tag`. -/
def patchTagsLunch : Patch := ⟨none, none, none, none, none, none, some ["Lunch"], none⟩

/-- A patch clearing the tag list, as in `test_clear_recipe_tags`. -/
def patchTagsEmpty : Patch := ⟨none, none, none, none, none, none, some [], none⟩

/-- A title-only patch, as in `test_partial_updates`. -/
def patchTitle : Patch := ⟨none, some "Chocolate Brownies", none, none, none, none, none, none⟩

/-- Store with three recipes of user 0 - two tagged, one untagged - and an
extra unassigned tag, as in `test_filter_by_tags` and
`test_filter_ingredients_assigned_to_recipes`. -/
def filterStore : Store :=
  { recipes := [
      ⟨0, 0, "pasta", 22, 525, none, none, [0], [0]⟩,
      ⟨1, 0, "Macarroni", 22, 525, none, none, [1], [1]⟩,
      ⟨2, 0, "Gnocchi", 22, 525, none, none, [], []⟩],
    tagTable := ⟨[⟨0, 0, "Vegan"⟩, ⟨1, 0, "Vegetarian"⟩, ⟨2, 0, "Dessert"⟩], 3⟩,
    ingTable := ⟨[⟨0, 0, "Onion"⟩, ⟨1, 0, "Mushroom"⟩, ⟨2, 0, "Turkey"⟩], 3⟩,
    nextRecipeId := 3 }

/-- `filterStore` with an extra recipe, tag and ingredient all owned by
another user (user 1), for the noninterference check. -/
def filterStoreOther : Store :=
  { recipes := filterStore.recipes ++ [⟨3, 1, "Shawarma", 10, 250, none, none, [3], [3]⟩],
    tagTable := ⟨filterStore.tagTable.rows ++ [⟨3, 1, "Vegan"⟩], 4⟩,
    ingTable := ⟨filterStore.ingTable.rows ++ [⟨3, 1, "Salt"⟩], 4⟩,
    nextRecipeId := 4 }

end RecipeApp

namespace WaitForDb

/-- Each loop run increments `retries` at most once per unit of fuel. -/
theorem handleGo_retries_le (check : Nat → CheckOutcome) :
    ∀ fuel retries, (handleGo check retries fuel).2 ≤ retries + fuel := by
  intro fuel
  induction fuel with
  | zero => intro r; simp [handleGo]
  | succ n ih =>
    intro r
    cases h : check r with
    | ok =>
      simp only [handleGo, h]
      omega
    | psycopg2Error =>
      have := ih (r + 1)
      simp only [handleGo, h]
      omega
    | djangoError =>
      have := ih (r + 1)
      simp only [handleGo, h]
      omega

/-- The loop stops at the first successful check. -/
theorem handleGo_early (check : Nat → CheckOutcome) (i : Nat)
    (hok : check i = .ok) :
    ∀ fuel retries, retries ≤ i → i < retries + fuel →
      (handleGo check retries fuel).2 ≤ i + 1 := by
  intro fuel
  induction fuel with
  | zero => intro r h1 h2; omega
  | succ n ih =>
    intro r h1 h2
    cases h : check r with
    | ok =>
      simp only [handleGo, h]
      omega
    | psycopg2Error =>
      have hne : r ≠ i := by
        intro e
        rw [e, hok] at h
        cases h
      simp only [handleGo, h]
      exact ih (r + 1) (by omega) (by omega)
    | djangoError =>
      have hne : r ≠ i := by
        intro e
        rw [e, hok] at h
        cases h
      simp only [handleGo, h]
      exact ih (r + 1) (by omega) (by omega)

/-- `db_up` ends true exactly when some check in the window succeeded. -/
theorem handleGo_up_iff (check : Nat → CheckOutcome) :
    ∀ fuel retries, (handleGo check retries fuel).1 = true ↔
      ∃ i, retries ≤ i ∧ i < retries + fuel ∧ check i = .ok := by
  intro fuel
  induction fuel with
  | zero =>
    intro r
    simp only [handleGo]
    constructor
    · intro h; cases h
    · rintro ⟨i, h1, h2, _⟩; omega
  | succ n ih =>
    intro r
    cases h : check r with
    | ok =>
      constructor
      · intro _
        exact ⟨r, Nat.le_refl r, by omega, h⟩
      · intro _
        simp [handleGo, h]
    | psycopg2Error =>
      simp only [handleGo, h]
      rw [ih (r + 1)]
      constructor
      · rintro ⟨i, h1, h2, h3⟩
        exact ⟨i, by omega, by omega, h3⟩
      · rintro ⟨i, h1, h2, h3⟩
        rcases Nat.eq_or_lt_of_le h1 with he | hl
        · rw [he, h3] at h; cases h
        · exact ⟨i, hl, by omega, h3⟩
    | djangoError =>
      simp only [handleGo, h]
      rw [ih (r + 1)]
      constructor
      · rintro ⟨i, h1, h2, h3⟩
        exact ⟨i, by omega, by omega, h3⟩
      · rintro ⟨i, h1, h2, h3⟩
        rcases Nat.eq_or_lt_of_le h1 with he | hl
        · rw [he, h3] at h; cases h
        · exact ⟨i, hl, by omega, h3⟩

/-- C9: the `wait_for_db` handle loop always terminates: for every sequence
of check outcomes it performs at most `MAX_RETRIES = 30` database checks,
and it stops early as soon as one check succeeds (if the check at attempt
`i < 30` succeeds, at most `i + 1` checks are performed). -/
theorem handle_at_most_thirty_checks (check : Nat → CheckOutcome) :
    (handle check).2 ≤ MAX_RETRIES ∧
      ∀ i, i < MAX_RETRIES → check i = .ok → (handle check).2 ≤ i + 1 := by
  constructor
  · have := handleGo_retries_le check MAX_RETRIES 0
    simpa [handle] using this
  · intro i hi hok
    have := handleGo_early check i hok MAX_RETRIES 0 (Nat.zero_le i) (by omega)
    simpa [handle] using this

/-- Witness for `handle_at_most_thirty_checks` at a concrete outcome
sequence whose first success is attempt 5. -/
theorem handle_at_most_thirty_checks_spot :
    (handle (fun i => if i = 5 then .ok else .psycopg2Error)).2 ≤ MAX_RETRIES ∧
      (handle (fun i => if i = 5 then .ok else .psycopg2Error)).2 ≤ 6 :=
  ⟨(handle_at_most_thirty_checks (fun i => if i = 5 then .ok else .psycopg2Error)).1,
   (handle_at_most_thirty_checks (fun i => if i = 5 then .ok else .psycopg2Error)).2
     5 (by decide) (by decide)⟩

/-- C10: `wait_for_db` catches every Psycopg2/Django OperationalError inside
the loop (the loop result is a total value for every outcome sequence, and
`handle` always ends in exactly one of the two stdout messages), and the
success message is written if and only if some check within the 30 attempts
succeeded. -/
theorem handle_message_iff_success (check : Nat → CheckOutcome) :
    ((handle check).1 = true ↔ ∃ i, i < MAX_RETRIES ∧ check i = .ok) ∧
      (handleMessage check = "Database available!" ↔
        ∃ i, i < MAX_RETRIES ∧ check i = .ok) ∧
      (handleMessage check = "Database available!" ∨
        handleMessage check = "Database not available after max retries.") := by
  have hup : (handle check).1 = true ↔ ∃ i, i < MAX_RETRIES ∧ check i = .ok := by
    rw [handle, handleGo_up_iff check MAX_RETRIES 0]
    constructor
    · rintro ⟨i, _, h2, h3⟩; exact ⟨i, by omega, h3⟩
    · rintro ⟨i, h1, h3⟩; exact ⟨i, Nat.zero_le i, by omega, h3⟩
  refine ⟨hup, ?_, ?_⟩
  · rw [← hup]
    unfold handleMessage
    cases hb : (handle check).1 with
    | false => simp
    | true => simp
  · unfold handleMessage
    cases hb : (handle check).1 with
    | false => right; simp
    | true => left; simp

/-- Witness for `handle_message_iff_success` at two concrete outcome
sequences: one that always succeeds, one that always raises a caught
exception. -/
theorem handle_message_iff_success_spot :
    handleMessage (fun _ => .ok) = "Database available!" ∧
      handleMessage (fun _ => .djangoError) =
        "Database not available after max retries." := by
  constructor
  · exact (handle_message_iff_success (fun _ => .ok)).2.1.mpr ⟨0, by decide, rfl⟩
  · refine ((handle_message_iff_success (fun _ => .djangoError)).2.2).resolve_left ?_
    intro h
    have := (handle_message_iff_success (fun _ => .djangoError)).2.1.mp h
    rcases this with ⟨i, _, h3⟩
    cases h3

end WaitForDb

namespace RecipeApp

/-- Get-or-create never removes rows. -/
theorem getOrCreate_rows_mono {tb : Table} {u : Nat} {n : String} {e : Ent}
    (h : e ∈ tb.rows) : e ∈ (getOrCreate tb u n).2.rows := by
  unfold getOrCreate
  cases hf : tb.rows.find? (fun e => e.user == u && e.name == n) with
  | some e' => simpa using h
  | none =>
    simp only
    exact List.mem_append_left _ h

/-- The id returned by get-or-create is the id of a row of the resulting
table owned by `u` and named `n`. -/
theorem getOrCreate_resolved (tb : Table) (u : Nat) (n : String) :
    ∃ e ∈ (getOrCreate tb u n).2.rows,
      e.id = (getOrCreate tb u n).1 ∧ e.user = u ∧ e.name = n := by
  unfold getOrCreate
  cases hf : tb.rows.find? (fun e => e.user == u && e.name == n) with
  | some e' =>
    have hp := List.find?_some hf
    have hm := List.mem_of_find?_eq_some hf
    simp only [Bool.and_eq_true, beq_iff_eq] at hp
    exact ⟨e', hm, rfl, hp.1, hp.2⟩
  | none =>
    refine ⟨⟨tb.nextId, u, n⟩, ?_, rfl, rfl, rfl⟩
    simp

/-- Reuse: when a `(u, n)` row already exists, get-or-create leaves the
table unchanged. -/
theorem getOrCreate_existing (tb : Table) (u : Nat) (n : String)
    (h : ∃ e ∈ tb.rows, e.user = u ∧ e.name = n) :
    (getOrCreate tb u n).2 = tb := by
  unfold getOrCreate
  cases hf : tb.rows.find? (fun e => e.user == u && e.name == n) with
  | some e' => rfl
  | none =>
    rw [List.find?_eq_none] at hf
    rcases h with ⟨e, hm, h1, h2⟩
    exact absurd (show (e.user == u && e.name == n) = true by simp [h1, h2]) (hf e hm)

/-- Creation: when no `(u, n)` row exists, exactly one new row - owned by
`u`, named `n` - is appended. -/
theorem getOrCreate_fresh (tb : Table) (u : Nat) (n : String)
    (h : tb.rows.countP (entMatches u n) = 0) :
    (getOrCreate tb u n).1 = tb.nextId ∧
      (getOrCreate tb u n).2.rows = tb.rows ++ [⟨tb.nextId, u, n⟩] := by
  have hf : tb.rows.find? (fun e => e.user == u && e.name == n) = none := by
    rw [List.find?_eq_none]
    rw [List.countP_eq_zero] at h
    intro x hx
    exact h x hx
  unfold getOrCreate
  rw [hf]
  exact ⟨rfl, rfl⟩

/-- How get-or-create moves the `(u, n)`-scoped row count: an existing count
stays, a zero count becomes one. -/
theorem getOrCreate_countP_self (tb : Table) (u : Nat) (n : String) :
    (getOrCreate tb u n).2.rows.countP (entMatches u n) =
      if tb.rows.countP (entMatches u n) = 0 then 1
      else tb.rows.countP (entMatches u n) := by
  unfold getOrCreate
  cases hf : tb.rows.find? (fun e => e.user == u && e.name == n) with
  | some e' =>
    have hp := List.find?_some hf
    have hm := List.mem_of_find?_eq_some hf
    have hpos : 0 < tb.rows.countP (entMatches u n) :=
      List.countP_pos_iff.mpr ⟨e', hm, by simpa [entMatches] using hp⟩
    simp [Nat.pos_iff_ne_zero.mp hpos]
  | none =>
    have h0 : tb.rows.countP (entMatches u n) = 0 := by
      rw [List.countP_eq_zero]
      rw [List.find?_eq_none] at hf
      intro a ha
      simpa [entMatches] using hf a ha
    simp [List.countP_append, h0, entMatches]

/-- Get-or-create leaves any row count untouched when the potential new row
does not match the counted predicate. -/
theorem getOrCreate_countP_other (tb : Table) (u : Nat) (n : String)
    (q : Ent → Bool) (hq : ∀ i, q ⟨i, u, n⟩ = false) :
    (getOrCreate tb u n).2.rows.countP q = tb.rows.countP q := by
  unfold getOrCreate
  cases hf : tb.rows.find? (fun e => e.user == u && e.name == n) with
  | some e' => rfl
  | none => simp [List.countP_append, hq]

/-- A freshly attached id is in the association set. -/
theorem attachId_mem (acc : List Nat) (j : Nat) : j ∈ attachId acc j := by
  unfold attachId
  split
  · assumption
  · exact List.mem_append_right _ (List.mem_singleton.mpr rfl)

/-- Attaching keeps every previously attached id. -/
theorem attachId_mem_of_mem {acc : List Nat} {i : Nat} (j : Nat) (h : i ∈ acc) :
    i ∈ attachId acc j := by
  unfold attachId
  split
  · exact h
  · exact List.mem_append_left _ h

/-- Every id in the attached set is either old or the attached one. -/
theorem attachId_src {acc : List Nat} {i j : Nat} (h : i ∈ attachId acc j) :
    i ∈ acc ∨ i = j := by
  unfold attachId at h
  split at h
  · exact Or.inl h
  · rcases List.mem_append.mp h with h | h
    · exact Or.inl h
    · exact Or.inr (List.mem_singleton.mp h)

end RecipeApp

namespace RecipeApp

/-- Resolving a name list never removes table rows. -/
theorem resolveNames_rows_mono (u : Nat) (e : Ent) :
    ∀ ns tb acc, e ∈ tb.rows → e ∈ (resolveNames u tb acc ns).2.rows := by
  intro ns
  induction ns with
  | nil =>
    intro tb acc h
    simpa [resolveNames] using h
  | cons n ns ih =>
    intro tb acc h
    simp only [resolveNames]
    exact ih _ _ (getOrCreate_rows_mono h)

/-- Resolving a name list keeps every already attached id. -/
theorem resolveNames_acc_mono (u i : Nat) :
    ∀ ns tb acc, i ∈ acc → i ∈ (resolveNames u tb acc ns).1 := by
  intro ns
  induction ns with
  | nil =>
    intro tb acc h
    simpa [resolveNames] using h
  | cons n ns ih =>
    intro tb acc h
    simp only [resolveNames]
    exact ih _ _ (attachId_mem_of_mem _ h)

/-- Soundness of resolution: every id in the resolved association set either
was already attached or belongs to a row of the resulting table owned by
`u` whose name is one of the requested names. -/
theorem resolveNames_sound (u : Nat) :
    ∀ ns tb acc i, i ∈ (resolveNames u tb acc ns).1 →
      i ∈ acc ∨ ∃ e ∈ (resolveNames u tb acc ns).2.rows,
        e.id = i ∧ e.user = u ∧ e.name ∈ ns := by
  intro ns
  induction ns with
  | nil =>
    intro tb acc i h
    left
    simpa [resolveNames] using h
  | cons n ns ih =>
    intro tb acc i h
    simp only [resolveNames] at h ⊢
    rcases ih _ _ i h with hacc | ⟨e, hm, h1, h2, h3⟩
    · rcases attachId_src hacc with hold | hnew
      · exact Or.inl hold
      · right
        obtain ⟨e, hm, hid, hu, hn⟩ := getOrCreate_resolved tb u n
        refine ⟨e, resolveNames_rows_mono u e ns _ _ hm, ?_, hu, ?_⟩
        · rw [hid, ← hnew]
        · rw [hn]
          exact List.mem_cons_self n ns
    · exact Or.inr ⟨e, hm, h1, h2, List.mem_cons_of_mem n h3⟩

/-- Completeness of resolution: every requested name ends up represented by
a row of the resulting table, owned by `u`, whose id is attached. -/
theorem resolveNames_complete (u : Nat) :
    ∀ ns tb acc n, n ∈ ns →
      ∃ e ∈ (resolveNames u tb acc ns).2.rows,
        e.id ∈ (resolveNames u tb acc ns).1 ∧ e.user = u ∧ e.name = n := by
  intro ns
  induction ns with
  | nil =>
    intro tb acc n h
    cases h
  | cons m ms ih =>
    intro tb acc n h
    rcases List.mem_cons.mp h with he | hm
    · obtain ⟨e, hmem, hid, hu, hn⟩ := getOrCreate_resolved tb u m
      simp only [resolveNames]
      refine ⟨e, resolveNames_rows_mono u e ms _ _ hmem, ?_, hu, ?_⟩
      · apply resolveNames_acc_mono
        rw [hid]
        exact attachId_mem _ _
      · rw [he]
        exact hn
    · simp only [resolveNames]
      exact ih _ _ n hm

/-- How resolution moves the `(u, nm)`-scoped row count: a zero count
becomes one exactly when `nm` is among the requested names; a nonzero count
never changes. -/
theorem resolveNames_countP (u : Nat) (nm : String) :
    ∀ ns tb acc,
      (resolveNames u tb acc ns).2.rows.countP (entMatches u nm) =
        if tb.rows.countP (entMatches u nm) = 0 ∧ nm ∈ ns then 1
        else tb.rows.countP (entMatches u nm) := by
  intro ns
  induction ns with
  | nil =>
    intro tb acc
    simp [resolveNames]
  | cons m ms ih =>
    intro tb acc
    simp only [resolveNames]
    rw [ih]
    by_cases hm : m = nm
    · subst hm
      rw [getOrCreate_countP_self]
      by_cases h0 : tb.rows.countP (entMatches u m) = 0
      · simp [h0]
      · simp [h0]
    · rw [getOrCreate_countP_other tb u m (entMatches u nm)
        (by intro i; simp [entMatches, hm])]
      have hiff : (nm ∈ m :: ms) ↔ nm ∈ ms := by
        constructor
        · intro h
          rcases List.mem_cons.mp h with h | h
          · exact absurd h.symm hm
          · exact h
        · exact List.mem_cons_of_mem m
      simp only [hiff]

end RecipeApp

namespace RecipeApp

/-- Unpack a successful owned-recipe lookup. -/
theorem findOwnedRecipe_some {s : Store} {u rid : Nat} {r : Recipe}
    (h : findOwnedRecipe s u rid = some r) :
    r ∈ s.recipes ∧ r.id = rid ∧ r.user = u := by
  have hp := List.find?_some h
  have hm := List.mem_of_find?_eq_some h
  simp only [Bool.and_eq_true, beq_iff_eq] at hp
  exact ⟨hm, hp.1, hp.2⟩

/-- C1: the owner of a recipe never changes after creation.  `Create` by
user `u` yields a recipe owned by `u`, and any successful `Update` - even
one whose patch carries a `user` field with any value, including another
user's id - leaves the `(id, owner)` of every stored recipe unchanged, with
the updated recipe still owned by `u`. -/
theorem recipe_owner_immutable (s : Store) (u : Nat) (p : CreateParams)
    (rid : Nat) (q : Patch) (r' : Recipe) (s' : Store) :
    (createRecipe s u p).1.user = u ∧
      (updateRecipe s u rid q = Except.ok (r', s') →
        r'.user = u ∧
          s'.recipes.map (fun x => (x.id, x.user)) =
            s.recipes.map (fun x => (x.id, x.user))) := by
  constructor
  · rfl
  · intro h
    unfold updateRecipe at h
    cases hf : findOwnedRecipe s u rid with
    | none =>
      rw [hf] at h
      cases h
    | some r =>
      rw [hf] at h
      obtain ⟨hm, hid, hu⟩ := findOwnedRecipe_some hf
      simp only [Except.ok.injEq, Prod.mk.injEq] at h
      obtain ⟨h1, h2⟩ := h
      constructor
      · rw [← h1]
        exact hu
      · rw [← h2]
        simp only [List.map_map]
        apply List.map_congr_left
        intro x hx
        by_cases hc : (x.id == rid && x.user == u) = true
        · simp only [Bool.and_eq_true, beq_iff_eq] at hc
          simp only [Function.comp_apply, hc, beq_self_eq_true, Bool.and_self, if_pos]
          rw [hid, hu]
        · simp only [Function.comp_apply, hc, if_neg]
          simp [hc]

/-- Witness for `recipe_owner_immutable`: updating the sample recipe with a
patch that tries to set `user := 1` keeps owner 0. -/
theorem recipe_owner_immutable_spot :
    (createRecipe emptyStore 0 sampleParams).1.user = 0 ∧
      (updateRecipe store1 0 0 patchUser).toOption.map (fun pr => pr.1.user) =
        some 0 := by
  constructor
  · exact (recipe_owner_immutable emptyStore 0 sampleParams 0 patchUser
      (createRecipe emptyStore 0 sampleParams).1 emptyStore).1
  · cases hu : updateRecipe store1 0 0 patchUser with
    | error e =>
      have hsome : (updateRecipe store1 0 0 patchUser).toOption.isSome = true := by
        decide
      rw [hu] at hsome
      cases hsome
    | ok pr =>
      obtain ⟨r', s'⟩ := pr
      have hone :=
        ((recipe_owner_immutable store1 0 sampleParams 0 patchUser r' s').2 hu).1
      simp [Except.toOption, hone]

end RecipeApp

namespace RecipeApp

/-- C8: partial-update frame.  Only the fields present in the patch are
modified: every field absent from the patch (including link, description,
the owner, and the tag/ingredient association sets when their keys are
absent) retains exactly its prior value, and recipes other than the updated
one are untouched. -/
theorem update_partial_frame (s : Store) (u rid : Nat) (q : Patch)
    (r r' : Recipe) (s' : Store)
    (hf : findOwnedRecipe s u rid = some r)
    (h : updateRecipe s u rid q = Except.ok (r', s')) :
    r'.id = r.id ∧ r'.user = r.user ∧
      (q.title = none → r'.title = r.title) ∧
      (q.time_minutes = none → r'.time_minutes = r.time_minutes) ∧
      (q.price = none → r'.price = r.price) ∧
      (q.description = none → r'.description = r.description) ∧
      (q.link = none → r'.link = r.link) ∧
      (q.tags = none → r'.tags = r.tags ∧ s'.tagTable = s.tagTable) ∧
      (q.ingredients = none → r'.ingredients = r.ingredients ∧ s'.ingTable = s.ingTable) ∧
      (∀ x ∈ s.recipes, x.id ≠ rid → x ∈ s'.recipes) := by
  unfold updateRecipe at h
  rw [hf] at h
  simp only [Except.ok.injEq, Prod.mk.injEq] at h
  obtain ⟨h1, h2⟩ := h
  subst h1
  subst h2
  refine ⟨rfl, rfl, ?_, ?_, ?_, ?_, ?_, ?_, ?_, ?_⟩
  · intro ht; simp [ht]
  · intro ht; simp [ht]
  · intro ht; simp [ht]
  · intro ht; simp [ht]
  · intro ht; simp [ht]
  · intro ht; exact ⟨by simp [ht], by simp [ht]⟩
  · intro ht; exact ⟨by simp [ht], by simp [ht]⟩
  · intro x hx hne
    refine List.mem_map.mpr ⟨x, hx, ?_⟩
    have hc : (x.id == rid && x.user == u) = false := by simp [hne]
    simp [hc]

/-- Witness for `update_partial_frame`: a title-only patch on the sample
recipe leaves link, owner, associations and the tag table unchanged. -/
theorem update_partial_frame_spot :
    (⟨0, 0, "Chocolate Brownies", 22, 525, some "Sample description",
       some "http://example.com/recipe.pdf", [], []⟩ : Recipe).link =
      (⟨0, 0, "Sample recipe title", 22, 525, some "Sample description",
         some "http://example.com/recipe.pdf", [], []⟩ : Recipe).link ∧
    (⟨0, 0, "Chocolate Brownies", 22, 525, some "Sample description",
       some "http://example.com/recipe.pdf", [], []⟩ : Recipe).user =
      (⟨0, 0, "Sample recipe title", 22, 525, some "Sample description",
         some "http://example.com/recipe.pdf", [], []⟩ : Recipe).user ∧
    (⟨0, 0, "Chocolate Brownies", 22, 525, some "Sample description",
       some "http://example.com/recipe.pdf", [], []⟩ : Recipe).tags =
      (⟨0, 0, "Sample recipe title", 22, 525, some "Sample description",
         some "http://example.com/recipe.pdf", [], []⟩ : Recipe).tags := by
  have h := update_partial_frame store1 0 0 patchTitle
    ⟨0, 0, "Sample recipe title", 22, 525, some "Sample description",
      some "http://example.com/recipe.pdf", [], []⟩
    ⟨0, 0, "Chocolate Brownies", 22, 525, some "Sample description",
      some "http://example.com/recipe.pdf", [], []⟩
    { recipes := [⟨0, 0, "Chocolate Brownies", 22, 525, some "Sample description",
        some "http://example.com/recipe.pdf", [], []⟩],
      tagTable := ⟨[], 0⟩, ingTable := ⟨[], 0⟩, nextRecipeId := 1 }
    (by rfl) (by rfl)
  exact ⟨h.2.2.2.2.2.2.1 rfl, h.2.1, (h.2.2.2.2.2.2.2.1 rfl).1⟩

end RecipeApp

namespace RecipeApp

/-- C2: a `tags`/`ingredients` key present in an update patch is a full
replacement of that association set: afterwards every attached id belongs
to a row of the resulting table owned by `u` with a name from the patch
list (so every previously attached entity not named in the list is
detached), every name in the list is attached, and an empty list clears the
relation entirely while creating nothing. -/
theorem update_full_replacement (s : Store) (u rid : Nat) (q : Patch)
    (r' : Recipe) (s' : Store)
    (h : updateRecipe s u rid q = Except.ok (r', s')) :
    (∀ ns, q.tags = some ns →
      (∀ i ∈ r'.tags, ∃ e ∈ s'.tagTable.rows, e.id = i ∧ e.user = u ∧ e.name ∈ ns) ∧
      (∀ n ∈ ns, ∃ e ∈ s'.tagTable.rows, e.id ∈ r'.tags ∧ e.user = u ∧ e.name = n) ∧
      (ns = [] → r'.tags = [] ∧ s'.tagTable = s.tagTable)) ∧
    (∀ ns, q.ingredients = some ns →
      (∀ i ∈ r'.ingredients, ∃ e ∈ s'.ingTable.rows, e.id = i ∧ e.user = u ∧ e.name ∈ ns) ∧
      (∀ n ∈ ns, ∃ e ∈ s'.ingTable.rows, e.id ∈ r'.ingredients ∧ e.user = u ∧ e.name = n) ∧
      (ns = [] → r'.ingredients = [] ∧ s'.ingTable = s.ingTable)) := by
  unfold updateRecipe at h
  cases hf : findOwnedRecipe s u rid with
  | none =>
    rw [hf] at h
    cases h
  | some r =>
    rw [hf] at h
    simp only [Except.ok.injEq, Prod.mk.injEq] at h
    obtain ⟨h1, h2⟩ := h
    subst h1
    subst h2
    constructor
    · intro ns hns
      refine ⟨?_, ?_, ?_⟩
      · intro i hi
        simp only [hns] at hi ⊢
        rcases resolveNames_sound u ns s.tagTable [] i hi with hacc | he
        · cases hacc
        · exact he
      · intro n hn
        simp only [hns]
        exact resolveNames_complete u ns s.tagTable [] n hn
      · intro hnil
        subst hnil
        simp [hns, resolveNames]
    · intro ns hns
      refine ⟨?_, ?_, ?_⟩
      · intro i hi
        simp only [hns] at hi ⊢
        rcases resolveNames_sound u ns s.ingTable [] i hi with hacc | he
        · cases hacc
        · exact he
      · intro n hn
        simp only [hns]
        exact resolveNames_complete u ns s.ingTable [] n hn
      · intro hnil
        subst hnil
        simp [hns, resolveNames]

/-- Witness for `update_full_replacement`: patching the tags of a recipe
that carries the "Dessert" tag with an empty list clears the relation. -/
theorem update_full_replacement_spot :
    (updateRecipe
        { recipes := [⟨0, 0, "Sample recipe title", 22, 525, none, none, [0], []⟩],
          tagTable := ⟨[⟨0, 0, "Dessert"⟩], 1⟩, ingTable := ⟨[], 0⟩,
          nextRecipeId := 1 }
        0 0 patchTagsEmpty).toOption.map (fun pr => pr.1.tags) =
      some [] := by
  cases hu : updateRecipe
      { recipes := [⟨0, 0, "Sample recipe title", 22, 525, none, none, [0], []⟩],
        tagTable := ⟨[⟨0, 0, "Dessert"⟩], 1⟩, ingTable := ⟨[], 0⟩,
        nextRecipeId := 1 }
      0 0 patchTagsEmpty with
  | error e =>
    have hsome : (updateRecipe
        { recipes := [⟨0, 0, "Sample recipe title", 22, 525, none, none, [0], []⟩],
          tagTable := ⟨[⟨0, 0, "Dessert"⟩], 1⟩, ingTable := ⟨[], 0⟩,
          nextRecipeId := 1 }
        0 0 patchTagsEmpty).toOption.isSome = true := by decide
    rw [hu] at hsome
    cases hsome
  | ok pr =>
    obtain ⟨r', s'⟩ := pr
    have hcl := (((update_full_replacement _ 0 0 patchTagsEmpty r' s' hu).1) []
      rfl).2.2 rfl
    simp [Except.toOption, hcl.1]

/-- With a count of exactly one matching row, any two matching members
coincide. -/
theorem countP_eq_one_unique {α : Type} (p' : α → Bool) (l : List α)
    (h : l.countP p' = 1) {a b : α} (ha : a ∈ l) (hb : b ∈ l)
    (hpa : p' a = true) (hpb : p' b = true) : a = b := by
  rw [List.countP_eq_length_filter] at h
  obtain ⟨x, hx⟩ := List.length_eq_one.mp h
  have h1 : a ∈ l.filter p' := List.mem_filter.mpr ⟨ha, hpa⟩
  have h2 : b ∈ l.filter p' := List.mem_filter.mpr ⟨hb, hpb⟩
  rw [hx, List.mem_singleton] at h1 h2
  rw [h1, h2]

/-- C3: resolving a `{name}` entry is get-or-create scoped to `(user,
name)`: an existing row is reused with no table change, otherwise exactly
one new row owned by the user is appended; and creating two recipes with
the same single-name tag list leaves exactly one such row, referenced by
both recipes. -/
theorem get_or_create_scoped (tb : Table) (u : Nat) (n : String)
    (s : Store) (p : CreateParams) (ns : List String) :
    ((∃ e ∈ tb.rows, e.user = u ∧ e.name = n) → (getOrCreate tb u n).2 = tb) ∧
    (tb.rows.countP (entMatches u n) = 0 →
      (getOrCreate tb u n).2.rows = tb.rows ++ [⟨tb.nextId, u, n⟩]) ∧
    (p.tags = some ns → n ∈ ns → s.tagTable.rows.countP (entMatches u n) = 0 →
      (createRecipe (createRecipe s u p).2 u p).2.tagTable.rows.countP
          (entMatches u n) = 1 ∧
        ∃ e ∈ (createRecipe (createRecipe s u p).2 u p).2.tagTable.rows,
          e.user = u ∧ e.name = n ∧
          e.id ∈ (createRecipe s u p).1.tags ∧
          e.id ∈ (createRecipe (createRecipe s u p).2 u p).1.tags) := by
  refine ⟨getOrCreate_existing tb u n, fun h => (getOrCreate_fresh tb u n h).2, ?_⟩
  intro hns hn h0
  have e1tab : (createRecipe s u p).2.tagTable = (resolveNames u s.tagTable [] ns).2 := by
    simp [createRecipe, hns]
  have e1tag : (createRecipe s u p).1.tags = (resolveNames u s.tagTable [] ns).1 := by
    simp [createRecipe, hns]
  have e2tab : (createRecipe (createRecipe s u p).2 u p).2.tagTable =
      (resolveNames u (createRecipe s u p).2.tagTable [] ns).2 := by
    simp [createRecipe, hns]
  have e2tag : (createRecipe (createRecipe s u p).2 u p).1.tags =
      (resolveNames u (createRecipe s u p).2.tagTable [] ns).1 := by
    simp [createRecipe, hns]
  have hc1 : (createRecipe s u p).2.tagTable.rows.countP (entMatches u n) = 1 := by
    rw [e1tab, resolveNames_countP]
    simp [h0, hn]
  have hc2 : (createRecipe (createRecipe s u p).2 u p).2.tagTable.rows.countP
      (entMatches u n) = 1 := by
    rw [e2tab, resolveNames_countP]
    simp [hc1]
  refine ⟨hc2, ?_⟩
  obtain ⟨e, hm, hacc, hu1, hn1⟩ := resolveNames_complete u ns s.tagTable [] n hn
  obtain ⟨e2, hm2, hacc2, hu2, hn2⟩ :=
    resolveNames_complete u ns (createRecipe s u p).2.tagTable [] n hn
  have hmem2 : e ∈ (resolveNames u (createRecipe s u p).2.tagTable [] ns).2.rows := by
    apply resolveNames_rows_mono
    rw [e1tab]
    exact hm
  have heq : e = e2 := by
    apply countP_eq_one_unique (entMatches u n)
      (createRecipe (createRecipe s u p).2 u p).2.tagTable.rows hc2
    · rw [e2tab]; exact hmem2
    · rw [e2tab]; exact hm2
    · simp [entMatches, hu1, hn1]
    · simp [entMatches, hu2, hn2]
  refine ⟨e, ?_, hu1, hn1, ?_, ?_⟩
  · rw [e2tab]
    exact hmem2
  · rw [e1tag]
    exact hacc
  · rw [e2tag, heq]
    exact hacc2

/-- Witness for `get_or_create_scoped`: reusing an existing "Indian" tag
leaves the table unchanged, and creating the sample "Thai"-tagged recipe
twice from the empty store leaves exactly one "Thai" row for user 0. -/
theorem get_or_create_scoped_spot :
    (getOrCreate ⟨[⟨0, 0, "Indian"⟩], 1⟩ 0 "Indian").2 = ⟨[⟨0, 0, "Indian"⟩], 1⟩ ∧
      (createRecipe (createRecipe emptyStore 0 thaiParams).2 0 thaiParams).2.tagTable.rows.countP
        (entMatches 0 "Thai") = 1 := by
  constructor
  · exact (get_or_create_scoped ⟨[⟨0, 0, "Indian"⟩], 1⟩ 0 "Indian" emptyStore
      thaiParams ["Thai"]).1 ⟨⟨0, 0, "Indian"⟩, by decide, rfl, rfl⟩
  · exact ((get_or_create_scoped ⟨[⟨0, 0, "Indian"⟩], 1⟩ 0 "Thai" emptyStore
      thaiParams ["Thai"]).2.2 rfl (by decide) (by decide)).1

end RecipeApp

namespace RecipeApp

/-- C4: for distinct users, an Update or Delete of another user's recipe
fails with NotFoundError - the same outcome as targeting a nonexistent
recipe - and, the operations being pure functions of the store that return
no successor state on error, the store (and hence the recipe with all its
fields and associations) is unchanged. -/
theorem cross_user_not_found (s : Store) (u1 u2 rid : Nat) (q : Patch)
    (r : Recipe) (hr : r ∈ s.recipes) (hid : r.id = rid) (hu1 : r.user = u1)
    (hall : ∀ x ∈ s.recipes, x.id = rid → x.user = u1)
    (hne : u1 ≠ u2) :
    updateRecipe s u2 rid q = Except.error RepoError.notFound ∧
      deleteRecipe s u2 rid = Except.error RepoError.notFound := by
  have hfind : findOwnedRecipe s u2 rid = none := by
    unfold findOwnedRecipe
    rw [List.find?_eq_none]
    intro x hx
    simp only [Bool.and_eq_true, beq_iff_eq, not_and]
    intro hxid hxu
    exact hne ((hall x hx hxid).symm.trans hxu)
  constructor
  · unfold updateRecipe
    rw [hfind]
  · unfold deleteRecipe
    rw [hfind]

/-- Witness for `cross_user_not_found`: user 1 cannot update or delete the
sample recipe of user 0. -/
theorem cross_user_not_found_spot :
    updateRecipe store1 1 0 patchTitle = Except.error RepoError.notFound ∧
      deleteRecipe store1 1 0 = Except.error RepoError.notFound :=
  cross_user_not_found store1 0 1 0 patchTitle
    ⟨0, 0, "Sample recipe title", 22, 525, some "Sample description",
      some "http://example.com/recipe.pdf", [], []⟩
    (by decide) rfl rfl (by decide) (by decide)

/-- C5: listing with a non-empty tags (or ingredients) id filter returns
exactly the user's recipes whose association set has non-empty intersection
with the filter set (OR semantics), and - the stored recipe ids being
distinct - no recipe appears more than once. -/
theorem list_recipes_filter_or (s : Store) (u : Nat) :
    (∀ ts, ts ≠ [] → ∀ r, r ∈ listRecipes s u ⟨some ts, none⟩ ↔
      r ∈ s.recipes ∧ r.user = u ∧ ∃ i ∈ r.tags, i ∈ ts) ∧
    (∀ ids, ids ≠ [] → ∀ r, r ∈ listRecipes s u ⟨none, some ids⟩ ↔
      r ∈ s.recipes ∧ r.user = u ∧ ∃ i ∈ r.ingredients, i ∈ ids) ∧
    (∀ f, (s.recipes.map Recipe.id).Nodup →
      ((listRecipes s u f).map Recipe.id).Nodup) := by
  refine ⟨?_, ?_, ?_⟩
  · intro ts _ r
    simp [listRecipes, intersects, List.mem_filter, List.any_eq_true, and_assoc]
  · intro ids _ r
    simp [listRecipes, intersects, List.mem_filter, List.any_eq_true, and_assoc]
  · intro f hnd
    unfold listRecipes
    rw [List.map_reverse, List.nodup_reverse]
    exact List.Nodup.sublist
      (List.Sublist.map Recipe.id (List.filter_sublist s.recipes)) hnd

/-- Witness for `list_recipes_filter_or` on the three-recipe fixture:
filtering by the two tag ids keeps the tagged "pasta", excludes the untagged
"Gnocchi", and returns distinct recipes. -/
theorem list_recipes_filter_or_spot :
    (⟨0, 0, "pasta", 22, 525, none, none, [0], [0]⟩ : Recipe) ∈
        listRecipes filterStore 0 ⟨some [0, 1], none⟩ ∧
      ¬((⟨2, 0, "Gnocchi", 22, 525, none, none, [], []⟩ : Recipe) ∈
        listRecipes filterStore 0 ⟨some [0, 1], none⟩) ∧
      ((listRecipes filterStore 0 ⟨some [0, 1], none⟩).map Recipe.id).Nodup := by
  refine ⟨?_, ?_, ?_⟩
  · exact ((list_recipes_filter_or filterStore 0).1 [0, 1] (by decide) _).mpr
      (by decide)
  · intro h
    exact absurd (((list_recipes_filter_or filterStore 0).1 [0, 1] (by decide) _).mp h)
      (by decide)
  · exact (list_recipes_filter_or filterStore 0).2.2 ⟨some [0, 1], none⟩ (by decide)

end RecipeApp

namespace RecipeApp

/-- Filtering by a predicate that entails `p` can be split through a first
filter by `p`. -/
theorem filter_restrict {α : Type} (p q : α → Bool)
    (h : ∀ a, q a = true → p a = true) :
    ∀ l : List α, l.filter q = (l.filter p).filter q := by
  intro l
  induction l with
  | nil => rfl
  | cons a l ih =>
    cases hq : q a with
    | true =>
      have hp := h a hq
      simp [List.filter_cons, hq, hp, ih]
    | false =>
      cases hp : p a with
      | true => simp [List.filter_cons, hq, hp, ih]
      | false => simp [List.filter_cons, hq, hp, ih]

/-- An existence test by a predicate that entails `p` can be restricted to
the `p`-filtered list. -/
theorem any_restrict {α : Type} (p q : α → Bool)
    (h : ∀ a, q a = true → p a = true) :
    ∀ l : List α, l.any q = (l.filter p).any q := by
  intro l
  induction l with
  | nil => rfl
  | cons a l ih =>
    cases hq : q a with
    | true =>
      have hp := h a hq
      simp [List.filter_cons, List.any_cons, hq, hp, ih]
    | false =>
      cases hp : p a with
      | true => simp [List.filter_cons, List.any_cons, hq, hp, ih]
      | false => simp [List.filter_cons, List.any_cons, hq, hp, ih]

/-- C6: ownership scoping as two-run noninterference: two stores that agree
on user `u`'s own recipes, tags and ingredients produce identical results
for every `List` filter and every `ListAssigned` query of `u` - adding,
changing, or removing other users' rows never changes what `u`'s listings
return. -/
theorem ownership_noninterference (s s' : Store) (u : Nat)
    (hrec : s.recipes.filter (fun r => r.user == u) =
      s'.recipes.filter (fun r => r.user == u))
    (htag : s.tagTable.rows.filter (fun e => e.user == u) =
      s'.tagTable.rows.filter (fun e => e.user == u))
    (hing : s.ingTable.rows.filter (fun e => e.user == u) =
      s'.ingTable.rows.filter (fun e => e.user == u)) :
    (∀ f, listRecipes s u f = listRecipes s' u f) ∧
      (∀ ao, listAssignedTags s u ao = listAssignedTags s' u ao) ∧
      (∀ ao, listAssignedIngredients s u ao = listAssignedIngredients s' u ao) := by
  have hassigned : ∀ (proj : Recipe → List Nat) (e : Ent),
      assignedToSome s.recipes u proj e = assignedToSome s'.recipes u proj e := by
    intro proj e
    unfold assignedToSome
    have himp : ∀ r : Recipe,
        (r.user == u && (proj r).contains e.id) = true → (r.user == u) = true := by
      intro r h
      exact (Bool.and_eq_true ..).mp h |>.1
    rw [any_restrict _ _ himp s.recipes, hrec, ← any_restrict _ _ himp s'.recipes]
  refine ⟨?_, ?_, ?_⟩
  · intro f
    unfold listRecipes
    have himp : ∀ r : Recipe,
        (r.user == u
          && (match f.tags with
              | none => true
              | some ts => intersects r.tags ts)
          && (match f.ingredients with
              | none => true
              | some ids => intersects r.ingredients ids)) = true →
          (r.user == u) = true := by
      intro r h
      exact ((Bool.and_eq_true ..).mp ((Bool.and_eq_true ..).mp h).1).1
    rw [filter_restrict _ _ himp s.recipes, hrec, ← filter_restrict _ _ himp s'.recipes]
  · intro ao
    unfold listAssignedTags listAssigned
    have himp : ∀ e : Ent,
        (e.user == u && (!ao || assignedToSome s.recipes u Recipe.tags e)) = true →
          (e.user == u) = true := by
      intro e h
      exact (Bool.and_eq_true ..).mp h |>.1
    rw [filter_restrict _ _ himp s.tagTable.rows, htag,
      ← filter_restrict _ _ himp s'.tagTable.rows]
    congr 1
    apply List.filter_congr
    intro e _
    rw [hassigned]
  · intro ao
    unfold listAssignedIngredients listAssigned
    have himp : ∀ e : Ent,
        (e.user == u && (!ao || assignedToSome s.recipes u Recipe.ingredients e)) = true →
          (e.user == u) = true := by
      intro e h
      exact (Bool.and_eq_true ..).mp h |>.1
    rw [filter_restrict _ _ himp s.ingTable.rows, hing,
      ← filter_restrict _ _ himp s'.ingTable.rows]
    congr 1
    apply List.filter_congr
    intro e _
    rw [hassigned]

/-- Witness for `ownership_noninterference`: adding a recipe, a "Vegan" tag
and a "Salt" ingredient all owned by user 1 leaves user 0's recipe listing
and assigned-tag listing unchanged. -/
theorem ownership_noninterference_spot :
    listRecipes filterStore 0 ⟨some [0, 1], none⟩ =
        listRecipes filterStoreOther 0 ⟨some [0, 1], none⟩ ∧
      listAssignedTags filterStore 0 true = listAssignedTags filterStoreOther 0 true := by
  have h := ownership_noninterference filterStore filterStoreOther 0
    (by decide) (by decide) (by decide)
  exact ⟨h.1 ⟨some [0, 1], none⟩, h.2.1 true⟩

end RecipeApp

namespace RecipeApp

/-- C7: `ListAssigned(user, assigned_only = true)` returns exactly the
user's tags/ingredients associated with at least one of the user's recipes
- an entity with zero recipe associations is excluded - and, the table rows
being distinct, each qualifying entity appears exactly once even when it is
associated with several recipes. -/
theorem list_assigned_only_correct (s : Store) (u : Nat) :
    (∀ e, e ∈ listAssignedTags s u true ↔
      e ∈ s.tagTable.rows ∧ e.user = u ∧ ∃ r ∈ s.recipes, r.user = u ∧ e.id ∈ r.tags) ∧
    (s.tagTable.rows.Nodup → ∀ e ∈ listAssignedTags s u true,
      List.count e (listAssignedTags s u true) = 1) ∧
    (∀ e, e ∈ listAssignedIngredients s u true ↔
      e ∈ s.ingTable.rows ∧ e.user = u ∧
        ∃ r ∈ s.recipes, r.user = u ∧ e.id ∈ r.ingredients) ∧
    (s.ingTable.rows.Nodup → ∀ e ∈ listAssignedIngredients s u true,
      List.count e (listAssignedIngredients s u true) = 1) := by
  refine ⟨?_, ?_, ?_, ?_⟩
  · intro e
    unfold listAssignedTags listAssigned
    rw [(List.perm_insertionSort _ _).mem_iff]
    simp [List.mem_filter, assignedToSome, List.any_eq_true, and_assoc]
  · intro hnd e he
    have hsorted : (listAssignedTags s u true).Nodup := by
      unfold listAssignedTags listAssigned
      exact (List.perm_insertionSort _ _).nodup_iff.mpr (hnd.filter _)
    exact List.count_eq_one_of_mem hsorted he
  · intro e
    unfold listAssignedIngredients listAssigned
    rw [(List.perm_insertionSort _ _).mem_iff]
    simp [List.mem_filter, assignedToSome, List.any_eq_true, and_assoc]
  · intro hnd e he
    have hsorted : (listAssignedIngredients s u true).Nodup := by
      unfold listAssignedIngredients listAssigned
      exact (List.perm_insertionSort _ _).nodup_iff.mpr (hnd.filter _)
    exact List.count_eq_one_of_mem hsorted he

/-- Witness for `list_assigned_only_correct` on the fixture store: the
assigned "Vegan" tag is listed exactly once and the unassigned "Dessert"
tag is excluded. -/
theorem list_assigned_only_correct_spot :
    (⟨0, 0, "Vegan"⟩ : Ent) ∈ listAssignedTags filterStore 0 true ∧
      ¬((⟨2, 0, "Dessert"⟩ : Ent) ∈ listAssignedTags filterStore 0 true) ∧
      List.count (⟨0, 0, "Vegan"⟩ : Ent) (listAssignedTags filterStore 0 true) = 1 := by
  have hmem : (⟨0, 0, "Vegan"⟩ : Ent) ∈ listAssignedTags filterStore 0 true :=
    ((list_assigned_only_correct filterStore 0).1 ⟨0, 0, "Vegan"⟩).mpr (by decide)
  refine ⟨hmem, ?_, ?_⟩
  · intro h
    exact absurd (((list_assigned_only_correct filterStore 0).1 ⟨2, 0, "Dessert"⟩).mp h)
      (by decide)
  · exact (list_assigned_only_correct filterStore 0).2.1 (by decide) _ hmem

end RecipeApp
